import Mathlib

/-!
Verification of the flowchart CFG generator (`main.py`).

The Python program builds a flowchart-style control-flow graph from a parsed
statement tree, computes McCabe-style complexity metrics, and serializes the
graph to a DOT-like description.  External collaborators (the Python `ast`
parser/unparser and the `graphviz` serializer) are modelled as opaque data:
statements carry their already-rendered display strings, and the exporter is a
deterministic Lean function over the node/edge records it would emit.

The builder's node table is a Python dict keyed by a monotonically assigned
integer id; keys are always the dense range 0..n-1 in insertion order, so the
table is modelled as a `List CFGNode` whose position is the id.  The dict
membership test in `add_edge` becomes a bounds check.
-/

/-- A node of the control-flow graph, mirroring class `CFGNode`.
`successors` is the ordered list of `(target id, edge label)` pairs;
`predecessors` is maintained (as in the source) but never load-bearing. -/
structure CFGNode where
  node_id : Nat
  label : String
  node_type : String
  condition : Option String
  successors : List (Nat × String)
  predecessors : List Nat
deriving Repr, DecidableEq

/-- Builder state, mirroring `FlowchartCFGBuilder.__init__`: the node table,
the monotonic id counter, and the frontier of open exits.  The unused
`entry_node` / `function_name` bookkeeping fields are omitted. -/
structure Builder where
  nodes : List CFGNode
  current_node_id : Nat
  current_exits : List Nat
deriving Repr, DecidableEq

/-- Replace the element at index `i` by `f` of it; out-of-range is a no-op. -/
def listModify (l : List CFGNode) (i : Nat) (f : CFGNode → CFGNode) : List CFGNode :=
  match l, i with
  | [], _ => []
  | x :: xs, 0 => f x :: xs
  | x :: xs, n + 1 => x :: listModify xs n f

/-- `CFGNode.add_successor`. -/
def CFGNode.add_successor (n : CFGNode) (t : Nat) (lab : String) : CFGNode :=
  { n with successors := n.successors ++ [(t, lab)] }

/-- `CFGNode.add_predecessor` (a Python set: insert only if absent). -/
def CFGNode.add_predecessor (n : CFGNode) (f : Nat) : CFGNode :=
  { n with predecessors := if n.predecessors.contains f then n.predecessors
                           else n.predecessors ++ [f] }

/-- `FlowchartCFGBuilder.create_node`: allocate a fresh node, returning the
new state and the fresh id. -/
def Builder.create_node (b : Builder) (label : String) (node_type : String)
    (condition : Option String) : Builder × Nat :=
  ({ b with
      nodes := b.nodes ++ [⟨b.current_node_id, label, node_type, condition, [], []⟩],
      current_node_id := b.current_node_id + 1 },
   b.current_node_id)

/-- `FlowchartCFGBuilder.add_edge`: guarded by membership of both endpoints in
the node table. -/
def Builder.add_edge (b : Builder) (fr t : Nat) (lab : String) : Builder :=
  if fr < b.nodes.length && t < b.nodes.length then
    { b with nodes := listModify (listModify b.nodes fr (fun n => n.add_successor t lab))
                        t (fun n => n.add_predecessor fr) }
  else b

/-- `FlowchartCFGBuilder.connect_exits_to_node`: add an unlabeled edge from
every current exit to `target`, then make `target` the sole exit. -/
def Builder.connect_exits_to_node (b : Builder) (target : Nat) : Builder :=
  let b2 := b.current_exits.foldl (fun acc e => acc.add_edge e target "") b
  { b2 with current_exits := [target] }

/-- Substring containment on strings (Python's `in` operator). -/
def strContains (s pat : String) : Bool :=
  s.data.tails.any (fun suf => pat.data.isPrefixOf suf)

/-- Python's `str.lower()`, written as an explicit character map so that it
evaluates inside the kernel (ASCII case folding, which covers the matching
done by the source). -/
def strToLower (s : String) : String := ⟨s.data.map Char.toLower⟩

/-- The node-kind classification of `visit_Expr` for a call statement
(lines 246-249): a case-insensitive substring scan of the rendered call text. -/
def exprCallNodeType (txt : String) : String :=
  let low := strToLower txt
  if strContains low "print" || strContains low "input" then
    if strContains low "print" then "output" else "input"
  else "call"

/-- The edge-relabel block of `visit_If` (lines 138-153): the unlabeled
successors are collected in order, the first becomes "True" and the rest
"False"; any already-labeled successor is dropped at reinsertion (which never
happens in a reachable state, where the just-created decision only has
unlabeled edges). -/
def ifRelabelSuccs (succs : List (Nat × String)) : List (Nat × String) :=
  match succs.filter (fun p => p.2 == "") with
  | [] => []
  | t :: rest => (t.1, "True") :: rest.map (fun p => (p.1, "False"))

/-- The final edge-relabeling block of `visit_While` (lines 182-189): every
successor of the decision that is the decision itself becomes "True", every
other successor becomes "False". -/
def relabelLoopEdges (b : Builder) (dec : Nat) : Builder :=
  { b with nodes := listModify b.nodes dec (fun n =>
      { n with successors := n.successors.map (fun p =>
          if p.1 == dec then (p.1, "True") else (p.1, "False")) }) }

/-- The statement tree consumed by the builder.  Expression rendering
(`ast.unparse`) is an external collaborator, so every constructor carries the
already-rendered display strings. -/
inductive Stmt where
  | funcdefn (name : String) (args : List String) (body : List Stmt)
  | sif (test : String) (body orelse : List Stmt)
  | swhile (test : String) (body : List Stmt)
  | sfor (target iter : String) (body : List Stmt)
  | ret (value : Option String)
  | assign (targets : List String) (value : String)
  | augassign (target op value : String)
  | exprCall (txt : String)
  | exprOther (txt : String)
  | other (txt : String)

/-- Whether a statement is a `Return` (the `isinstance(stmt, ast.Return)`
test of `visit_FunctionDef`). -/
def isReturnStmt : Stmt → Bool
  | .ret _ => true
  | _ => false

mutual

/-- One visitor step, mirroring the `visit_*` methods of
`FlowchartCFGBuilder`. -/
def visitStmt (b : Builder) : Stmt → Builder
  | .funcdefn name args body =>
      let j := String.intercalate ", " args
      let r := b.create_node (s!"def {name}({j})") "start" none
      let b2 := r.1.connect_exits_to_node r.2
      let b3 := visitStmts b2 body
      if body.any isReturnStmt then b3
      else
        let r2 := b3.create_node "return None" "output" none
        r2.1.connect_exits_to_node r2.2
  | .sif test body orelse =>
      let r := b.create_node test "decision" (some test)
      let dec := r.2
      let b2 := r.1.connect_exits_to_node dec
      let b3 := visitStmts { b2 with current_exits := [dec] } body
      let saved1 := b3.current_exits
      let b4 := visitStmts { b3 with current_exits := [dec] } orelse
      let saved := saved1 ++ b4.current_exits.filter (fun x => !(saved1.contains x))
      let succs := ((b4.nodes.get? dec).map (fun n => n.successors)).getD []
      let newSuccs := ifRelabelSuccs succs
      let b5 := { b4 with nodes := listModify b4.nodes dec (fun n =>
                    { n with successors := newSuccs }) }
      { b5 with current_exits := saved }
  | .swhile test body =>
      let r := b.create_node test "decision" (some test)
      let dec := r.2
      let b2 := r.1.connect_exits_to_node dec
      let b3 := visitStmts { b2 with current_exits := [dec] } body
      let b4 := b3.current_exits.foldl (fun acc e => acc.add_edge e dec "") b3
      let b5 := { b4 with current_exits := [dec] }
      relabelLoopEdges b5 dec
  | .sfor target iter body =>
      let cond := s!"for {target} in {iter}"
      let r := b.create_node cond "decision" (some cond)
      let dec := r.2
      let b2 := r.1.connect_exits_to_node dec
      let b3 := visitStmts { b2 with current_exits := [dec] } body
      let b4 := b3.current_exits.foldl (fun acc e => acc.add_edge e dec "") b3
      { b4 with current_exits := [dec] }
  | .ret v =>
      let txt := match v with
        | some e => s!"return {e}"
        | none => "return"
      let r := b.create_node txt "output" none
      let b2 := r.1.connect_exits_to_node r.2
      { b2 with current_exits := [] }
  | .assign targets value =>
      let j := String.intercalate " = " targets
      let r := b.create_node (s!"{j} = {value}") "process" none
      r.1.connect_exits_to_node r.2
  | .augassign target op value =>
      let r := b.create_node (s!"{target} {op}= {value}") "process" none
      r.1.connect_exits_to_node r.2
  | .exprCall txt =>
      let r := b.create_node txt (exprCallNodeType txt) none
      r.1.connect_exits_to_node r.2
  | .exprOther txt =>
      let r := b.create_node txt "process" none
      r.1.connect_exits_to_node r.2
  | .other txt =>
      if txt.trim.length > 0 then
        let r := b.create_node txt "process" none
        r.1.connect_exits_to_node r.2
      else b

/-- `visit_statements`: visit a list of statements in order. -/
def visitStmts (b : Builder) : List Stmt → Builder
  | [] => b
  | s :: rest => visitStmts (visitStmt b s) rest

end

/-- `visit_Module` composed with a fresh builder (`create_flowchart_cfg` on a
successfully parsed program): START, the statement sequence, END. -/
def buildCFG (prog : List Stmt) : Builder :=
  let b0 : Builder := ⟨[], 0, []⟩
  let r := b0.create_node "START" "start" none
  let b2 := { r.1 with current_exits := [r.2] }
  let b3 := visitStmts b2 prog
  let r2 := b3.create_node "END" "end" none
  r2.1.connect_exits_to_node r2.2

/-- Total outgoing-edge count of a node table (the `E` of the formula). -/
def totalEdges (nodes : List CFGNode) : Nat :=
  (nodes.map (fun n => n.successors.length)).sum

/-- `calculate_cyclomatic_complexity`: 0 on the empty table, otherwise
`max (E - N + 2, 1)` with `P = 1`. -/
def calculate_cyclomatic_complexity (nodes : List CFGNode) : Int :=
  if nodes.isEmpty then 0
  else
    let N : Int := nodes.length
    let E : Int := totalEdges nodes
    max (E - N + 2 * 1) 1

/-- `calculate_complexity_by_decisions`: number of decision nodes plus one. -/
def calculate_complexity_by_decisions (nodes : List CFGNode) : Nat :=
  (nodes.filter (fun n => n.node_type == "decision")).length + 1

/-- Number of edges whose target is `t` (computed from the successor lists,
the load-bearing side of the representation). -/
def inDegree (nodes : List CFGNode) (t : Nat) : Nat :=
  (nodes.map (fun n => (n.successors.filter (fun p => p.1 == t)).length)).sum

/-- Count of nodes of a given kind. -/
def countType (t : String) (nodes : List CFGNode) : Nat :=
  nodes.countP (fun n => n.node_type == t)

/-- `CFGNode.get_shape`: the per-kind shape lookup table with default. -/
def get_shape (n : CFGNode) : String :=
  if n.node_type == "start" then "ellipse"
  else if n.node_type == "end" then "ellipse"
  else if n.node_type == "process" then "box"
  else if n.node_type == "decision" then "diamond"
  else if n.node_type == "input" then "parallelogram"
  else if n.node_type == "output" then "parallelogram"
  else if n.node_type == "call" then "box"
  else "box"

/-- `CFGNode.get_color`: the per-kind fill-color lookup table with default. -/
def get_color (n : CFGNode) : String :=
  if n.node_type == "start" then "lightgreen"
  else if n.node_type == "end" then "lightcoral"
  else if n.node_type == "process" then "lightyellow"
  else if n.node_type == "decision" then "lightblue"
  else if n.node_type == "input" then "lightcyan"
  else if n.node_type == "output" then "lightgreen"
  else if n.node_type == "call" then "plum"
  else "lightgray"

/-- Python's `str.split()`: split on whitespace, dropping empty pieces. -/
def splitWords (s : String) : List String :=
  (s.split Char.isWhitespace).filter (fun w => w ≠ "")

/-- One step of the greedy 30-column word wrap of `visualize_flowchart_cfg`
(lines 352-369): state is (finished lines, current line words, current width). -/
def wrapFold (acc : List String × List String × Nat) (word : String) :
    List String × List String × Nat :=
  let lines := acc.1
  let cur := acc.2.1
  let curLen := acc.2.2
  if curLen + word.length + 1 ≤ 30 then
    (lines, cur ++ [word], curLen + word.length + 1)
  else
    let lines2 := if cur.isEmpty then lines else lines ++ [String.intercalate " " cur]
    (lines2, [word], word.length)

/-- The label formatting of `visualize_flowchart_cfg`: labels longer than 30
characters are greedily wrapped at word boundaries and rejoined with a literal
backslash-n (the DOT line break). -/
def wrapLabel (label : String) : String :=
  if label.length > 30 then
    let r := (splitWords label).foldl wrapFold ([], [], 0)
    let lines := if r.2.1.isEmpty then r.1 else r.1 ++ [String.intercalate " " r.2.1]
    String.intercalate "\\n" lines
  else label

/-- Quoting applied by the external DOT serializer; modelled as plain
quotation marks around the payload. -/
def quoteDot (s : String) : String := "\"" ++ s ++ "\""

/-- The record emitted by the `dot.node(...)` call for one node: id, wrapped
label, shape, fill color, filled style, and the diamond-dependent sizes. -/
def nodeDecl (n : CFGNode) : String :=
  let shape := get_shape n
  let w := if shape == "diamond" then "1.5" else "1.0"
  let h := if shape == "diamond" then "1.0" else "0.5"
  toString n.node_id ++ " [label=" ++ quoteDot (wrapLabel n.label) ++ " shape=" ++ shape
    ++ " fillcolor=" ++ get_color n ++ " style=filled width=" ++ w
    ++ " height=" ++ h ++ "]"

/-- The records emitted by the `dot.edge(...)` calls for one node's outgoing
edges, in successor-list order; an empty label emits no label attribute. -/
def edgeDeclsOf (n : CFGNode) : List String :=
  n.successors.map (fun p =>
    if p.2 == "" then toString n.node_id ++ " -> " ++ toString p.1
    else toString n.node_id ++ " -> " ++ toString p.1 ++ " [label=" ++ quoteDot p.2 ++ "]")

/-- `visualize_flowchart_cfg`: empty description for an empty graph, otherwise
the header attributes, one node record per node in table order, and one edge
record per successor-list entry in insertion order. -/
def visualize_flowchart_cfg (nodes : List CFGNode) : String :=
  if nodes.isEmpty then ""
  else
    let header :=
      "digraph \x7b rankdir=TB splines=ortho node [fontname=Arial fontsize=10] edge [fontname=Arial fontsize=9]"
    let nodeLines := nodes.map nodeDecl
    let edgeLines := (nodes.map edgeDeclsOf).flatten
    String.intercalate "\n" ((header :: nodeLines) ++ edgeLines) ++ "\n\x7d"

/-- The data the exporter may depend on, per the determinism property:
node id, display label, kind, and the successor list (content and order).
`condition` and the predecessor bookkeeping are excluded. -/
def visibleProj (n : CFGNode) : Nat × String × String × List (Nat × String) :=
  (n.node_id, n.label, n.node_type, n.successors)

theorem nodeDecl_congr {a b : CFGNode} (h : visibleProj a = visibleProj b) :
    nodeDecl a = nodeDecl b := by
  have h1 : a.node_id = b.node_id := congrArg (fun p => p.1) h
  have h2 : a.label = b.label := congrArg (fun p => p.2.1) h
  have h3 : a.node_type = b.node_type := congrArg (fun p => p.2.2.1) h
  simp only [nodeDecl, get_shape, get_color, h1, h2, h3]

theorem edgeDeclsOf_congr {a b : CFGNode} (h : visibleProj a = visibleProj b) :
    edgeDeclsOf a = edgeDeclsOf b := by
  have h1 : a.node_id = b.node_id := congrArg (fun p => p.1) h
  have h4 : a.successors = b.successors := congrArg (fun p => p.2.2.2) h
  simp only [edgeDeclsOf, h1, h4]

theorem map_congr_visible {α : Type} (f : CFGNode → α)
    (hf : ∀ a b : CFGNode, visibleProj a = visibleProj b → f a = f b) :
    ∀ (l1 l2 : List CFGNode), l1.map visibleProj = l2.map visibleProj →
      l1.map f = l2.map f := by
  intro l1
  induction l1 with
  | nil => intro l2 h; cases l2 with
    | nil => rfl
    | cons b t => simp at h
  | cons a t ih =>
    intro l2 h
    cases l2 with
    | nil => simp at h
    | cons b t2 =>
      simp only [List.map_cons, List.cons.injEq] at h ⊢
      exact ⟨hf a b h.1, ih t2 h.2⟩

/-- C9: the graph exporter is deterministic — it is a pure function, and its
output depends only on the node ids, labels, kinds, and the full successor
lists (content and order); two graphs that agree on those (even if the
bookkeeping `condition` and `predecessors` fields differ) export to
byte-identical description strings. -/
theorem c9_export_deterministic (g1 g2 : List CFGNode)
    (h : g1.map visibleProj = g2.map visibleProj) :
    visualize_flowchart_cfg g1 = visualize_flowchart_cfg g2 := by
  have hnodes : g1.map nodeDecl = g2.map nodeDecl :=
    map_congr_visible nodeDecl (fun a b hp => nodeDecl_congr hp) g1 g2 h
  have hedges : g1.map edgeDeclsOf = g2.map edgeDeclsOf :=
    map_congr_visible edgeDeclsOf (fun a b hp => edgeDeclsOf_congr hp) g1 g2 h
  have hempty : g1.isEmpty = g2.isEmpty := by
    cases g1 <;> cases g2 <;> simp_all
  simp only [visualize_flowchart_cfg, hempty, hnodes, hedges]

/-- Closed instance of `c9_export_deterministic`: two one-node graphs that
differ only in `condition` and `predecessors` export identically. -/
theorem c9_export_deterministic_witness :
    [(⟨0, "a", "process", none, [(0, "x")], []⟩ : CFGNode)].map visibleProj =
      [(⟨0, "a", "process", some "c", [(0, "x")], [5]⟩ : CFGNode)].map visibleProj ∧
    visualize_flowchart_cfg [⟨0, "a", "process", none, [(0, "x")], []⟩] =
      visualize_flowchart_cfg [⟨0, "a", "process", some "c", [(0, "x")], [5]⟩] :=
  ⟨rfl, c9_export_deterministic
    [⟨0, "a", "process", none, [(0, "x")], []⟩]
    [⟨0, "a", "process", some "c", [(0, "x")], [5]⟩] rfl⟩

/-- C1: the completed-Decision invariant fails on the code.  For the program
`if x > 0: y = 1` (no else branch) the decision node ends with two outgoing
edges labeled "True" and "" — the fall-through edge added after the
conditional was relabeled never receives a "False" label.  (For loops the
labels are "False" and "", see the Scenario C evaluation.) -/
theorem c1_decision_invariant_fails :
    ((buildCFG [.sif "x > 0" [.assign ["y"] "1"] []]).nodes.get? 1).map
        (fun n => (n.node_type, n.successors)) =
      some ("decision", [(2, "True"), (3, "")]) := by rfl

/-- C3: the actual graph the code builds for `while x > 0: x = x - 1`.
The shape (Start → Decision, body with back edge, Decision → End) and the
complexity 2 match the claim, but the decision's edge into the body is
labeled "False" (not "True") and its edge to END is unlabeled (not "False"):
the while relabeling compares successor targets against the decision itself,
and the back edge lives on the body node, so the rule never fires. -/
theorem c3_scenarioC_actual :
    buildCFG [.swhile "x > 0" [.assign ["x"] "x - 1"]] =
      ⟨[⟨0, "START", "start", none, [(1, "")], []⟩,
        ⟨1, "x > 0", "decision", some "x > 0", [(2, "False"), (3, "")], [0, 2]⟩,
        ⟨2, "x = x - 1", "process", none, [(1, "")], [1]⟩,
        ⟨3, "END", "end", none, [], [1]⟩], 4, [3]⟩ ∧
    calculate_cyclomatic_complexity
      (buildCFG [.swhile "x > 0" [.assign ["x"] "x - 1"]]).nodes = 2 := by
  exact ⟨by rfl, by rfl⟩

/-- C5 counterexample: on the empty graph the complexity function returns 0,
not `max 1 (E - N + 2) = 2`, so neither the claimed formula nor the claimed
lower bound of 1 holds for every graph. -/
theorem c5_empty_graph_counterexample :
    calculate_cyclomatic_complexity [] = 0 := by rfl

/-- C5 (amended): for every nonempty graph the complexity function computes
`max 1 (E - N + 2)`, which is at least 1; only the empty graph returns 0. -/
theorem c5_nonempty_formula (nodes : List CFGNode) (h : nodes ≠ []) :
    calculate_cyclomatic_complexity nodes =
      max 1 ((totalEdges nodes : Int) - (nodes.length : Int) + 2) ∧
    1 ≤ calculate_cyclomatic_complexity nodes := by
  have hempty : nodes.isEmpty = false := by
    cases nodes with
    | nil => exact absurd rfl h
    | cons a t => rfl
  constructor
  · simp only [calculate_cyclomatic_complexity, hempty]
    simp [max_comm]
  · simp only [calculate_cyclomatic_complexity, hempty]
    simp [le_max_right]

/-- Closed instance of `c5_nonempty_formula` at a one-node graph. -/
theorem c5_nonempty_formula_witness :
    calculate_cyclomatic_complexity [(⟨0, "START", "start", none, [], []⟩ : CFGNode)] =
      max 1 ((totalEdges [(⟨0, "START", "start", none, [], []⟩ : CFGNode)] : Int) -
        (([(⟨0, "START", "start", none, [], []⟩ : CFGNode)] : List CFGNode).length : Int) + 2) ∧
    1 ≤ calculate_cyclomatic_complexity [(⟨0, "START", "start", none, [], []⟩ : CFGNode)] :=
  c5_nonempty_formula [⟨0, "START", "start", none, [], []⟩] (by simp)

/-- C7 counterexample: the expression statement `sprint()` has callee name
`sprint`, which is neither an output- nor an input-producing name, so the
claim requires a Call node; the code classifies it as an Output node, because
it matches `print` as a substring of the rendered call text. -/
theorem c7_substring_counterexample :
    ((buildCFG [.exprCall "sprint()"]).nodes.get? 1).map
        (fun n => (n.label, n.node_type)) = some ("sprint()", "output") := by rfl

mutual

/-- Number of nodes of kind `t` the visitor creates for one statement:
one Start plus possibly the synthesized "return None" Output for a function
definition, one Decision per conditional or loop, one Output per Return,
one Process per assignment or plain expression, the classified kind for a
call statement, and one Process for a nonblank unrecognized statement. -/
def createdOfType (t : String) : Stmt → Nat
  | .funcdefn _ _ body =>
      (if ("start" : String) == t then 1 else 0) + createdList t body +
        (if body.any isReturnStmt then 0 else if ("output" : String) == t then 1 else 0)
  | .sif _ body orelse =>
      (if ("decision" : String) == t then 1 else 0) + createdList t body + createdList t orelse
  | .swhile _ body => (if ("decision" : String) == t then 1 else 0) + createdList t body
  | .sfor _ _ body => (if ("decision" : String) == t then 1 else 0) + createdList t body
  | .ret _ => if ("output" : String) == t then 1 else 0
  | .assign _ _ => if ("process" : String) == t then 1 else 0
  | .augassign _ _ _ => if ("process" : String) == t then 1 else 0
  | .exprCall txt => if exprCallNodeType txt == t then 1 else 0
  | .exprOther _ => if ("process" : String) == t then 1 else 0
  | .other txt =>
      if txt.trim.length > 0 then (if ("process" : String) == t then 1 else 0) else 0

/-- Number of nodes of kind `t` created for a statement sequence. -/
def createdList (t : String) : List Stmt → Nat
  | [] => 0
  | s :: r => createdOfType t s + createdList t r

end

mutual

/-- Number of function definitions in a statement, including nested ones. -/
def numFuncDefs : Stmt → Nat
  | .funcdefn _ _ body => 1 + numFuncDefsList body
  | .sif _ body orelse => numFuncDefsList body + numFuncDefsList orelse
  | .swhile _ body => numFuncDefsList body
  | .sfor _ _ body => numFuncDefsList body
  | .ret _ => 0
  | .assign _ _ => 0
  | .augassign _ _ _ => 0
  | .exprCall _ => 0
  | .exprOther _ => 0
  | .other _ => 0

/-- Number of function definitions in a statement sequence. -/
def numFuncDefsList : List Stmt → Nat
  | [] => 0
  | s :: r => numFuncDefs s + numFuncDefsList r

end

mutual

/-- Statements containing no conditional or loop construct (so no Decision
node is ever created while visiting them). -/
def noBranchStmt : Stmt → Bool
  | .funcdefn _ _ body => noBranchList body
  | .sif _ _ _ => false
  | .swhile _ _ => false
  | .sfor _ _ _ => false
  | .ret _ => true
  | .assign _ _ => true
  | .augassign _ _ _ => true
  | .exprCall _ => true
  | .exprOther _ => true
  | .other _ => true

/-- Statement sequences containing no conditional or loop construct. -/
def noBranchList : List Stmt → Bool
  | [] => true
  | s :: r => noBranchStmt s && noBranchList r

end

/-- The immutable part of a node: identity, display label, kind, condition.
Only `successors` and `predecessors` are ever mutated after creation. -/
def nodeMeta (n : CFGNode) : Nat × String × String × Option String :=
  (n.node_id, n.label, n.node_type, n.condition)

/-- The immutable part of the node at index `j`. -/
def metaAt (l : List CFGNode) (j : Nat) : Option (Nat × String × String × Option String) :=
  (l.get? j).map nodeMeta

theorem listModify_length (l : List CFGNode) (i : Nat) (f : CFGNode → CFGNode) :
    (listModify l i f).length = l.length := by
  induction l generalizing i with
  | nil => rfl
  | cons x xs ih =>
    cases i with
    | zero => rfl
    | succ n => simp [listModify, ih]

theorem get?_listModify (l : List CFGNode) (i : Nat) (f : CFGNode → CFGNode) (j : Nat) :
    (listModify l i f).get? j = if j = i then (l.get? j).map f else l.get? j := by
  induction l generalizing i j with
  | nil => simp [listModify]
  | cons x xs ih =>
    cases i with
    | zero =>
      cases j with
      | zero => simp [listModify]
      | succ m => simp [listModify]
    | succ n =>
      cases j with
      | zero => simp [listModify]
      | succ m => simpa [listModify, Nat.succ_inj] using ih n m

theorem countP_listModify (p : CFGNode → Bool) (l : List CFGNode) (i : Nat)
    (f : CFGNode → CFGNode) (hf : ∀ n, p (f n) = p n) :
    (listModify l i f).countP p = l.countP p := by
  induction l generalizing i with
  | nil => rfl
  | cons x xs ih =>
    cases i with
    | zero => simp [listModify, List.countP_cons, hf]
    | succ n => simp [listModify, List.countP_cons, ih]

theorem mem_listModify {l : List CFGNode} {i : Nat} {f : CFGNode → CFGNode} {n : CFGNode}
    (h : n ∈ listModify l i f) : n ∈ l ∨ ∃ m, m ∈ l ∧ n = f m := by
  induction l generalizing i with
  | nil => simp [listModify] at h
  | cons x xs ih =>
    cases i with
    | zero =>
      rcases List.mem_cons.mp h with h1 | h1
      · exact Or.inr ⟨x, List.mem_cons_self x xs, h1⟩
      · exact Or.inl (List.mem_cons_of_mem x h1)
    | succ k =>
      rcases List.mem_cons.mp h with h1 | h1
      · exact Or.inl (h1 ▸ List.mem_cons_self x xs)
      · rcases ih h1 with h2 | ⟨m, hm, he⟩
        · exact Or.inl (List.mem_cons_of_mem x h2)
        · exact Or.inr ⟨m, List.mem_cons_of_mem x hm, he⟩

theorem totalEdges_listModify_le (l : List CFGNode) (i : Nat) (f : CFGNode → CFGNode)
    (hf : ∀ n, (f n).successors.length ≤ n.successors.length + 1) :
    totalEdges (listModify l i f) ≤ totalEdges l + 1 := by
  induction l generalizing i with
  | nil => simp [listModify, totalEdges]
  | cons x xs ih =>
    cases i with
    | zero =>
      simp only [listModify, totalEdges, List.map_cons, List.sum_cons]
      have := hf x
      omega
    | succ n =>
      simp only [listModify, totalEdges, List.map_cons, List.sum_cons]
      have := ih n
      simp only [totalEdges] at this
      omega

theorem totalEdges_listModify_eq (l : List CFGNode) (i : Nat) (f : CFGNode → CFGNode)
    (hf : ∀ n, (f n).successors.length = n.successors.length) :
    totalEdges (listModify l i f) = totalEdges l := by
  induction l generalizing i with
  | nil => rfl
  | cons x xs ih =>
    cases i with
    | zero => simp [listModify, totalEdges, hf]
    | succ n =>
      simp only [listModify, totalEdges, List.map_cons, List.sum_cons]
      have := ih n
      simp only [totalEdges] at this
      omega

theorem add_edge_nodes_length (b : Builder) (fr t : Nat) (lab : String) :
    (b.add_edge fr t lab).nodes.length = b.nodes.length := by
  unfold Builder.add_edge
  split <;> simp [listModify_length]

theorem add_edge_id (b : Builder) (fr t : Nat) (lab : String) :
    (b.add_edge fr t lab).current_node_id = b.current_node_id := by
  unfold Builder.add_edge
  split <;> rfl

theorem add_edge_exits (b : Builder) (fr t : Nat) (lab : String) :
    (b.add_edge fr t lab).current_exits = b.current_exits := by
  unfold Builder.add_edge
  split <;> rfl

theorem add_edge_metaAt (b : Builder) (fr t : Nat) (lab : String) (j : Nat) :
    metaAt (b.add_edge fr t lab).nodes j = metaAt b.nodes j := by
  unfold Builder.add_edge
  split
  · simp only [metaAt, get?_listModify]
    split
    · split
      · cases h : b.nodes.get? j <;>
          simp [CFGNode.add_successor, CFGNode.add_predecessor, nodeMeta]
      · cases h : b.nodes.get? j <;>
          simp [CFGNode.add_successor, CFGNode.add_predecessor, nodeMeta]
    · split
      · cases h : b.nodes.get? j <;>
          simp [CFGNode.add_successor, CFGNode.add_predecessor, nodeMeta]
      · rfl
  · rfl

theorem add_edge_countType (ty : String) (b : Builder) (fr t : Nat) (lab : String) :
    countType ty (b.add_edge fr t lab).nodes = countType ty b.nodes := by
  unfold Builder.add_edge
  split
  · simp only [countType]
    rw [countP_listModify, countP_listModify] <;>
      intro n <;> simp [CFGNode.add_successor, CFGNode.add_predecessor]
  · rfl

theorem add_edge_totalEdges_le (b : Builder) (fr t : Nat) (lab : String) :
    totalEdges (b.add_edge fr t lab).nodes ≤ totalEdges b.nodes + 1 := by
  unfold Builder.add_edge
  split
  · have h1 : totalEdges (listModify (listModify b.nodes fr
        (fun n => n.add_successor t lab)) t (fun n => n.add_predecessor fr)) =
        totalEdges (listModify b.nodes fr (fun n => n.add_successor t lab)) := by
      apply totalEdges_listModify_eq
      intro n
      simp [CFGNode.add_predecessor]
    have h2 : totalEdges (listModify b.nodes fr (fun n => n.add_successor t lab)) ≤
        totalEdges b.nodes + 1 :=
      totalEdges_listModify_le _ _ _ (fun n => by simp [CFGNode.add_successor])
    simp only []
    omega
  · simp

theorem add_edge_noZero (b : Builder) (fr t : Nat) (lab : String) (ht : t ≠ 0)
    (h : ∀ n ∈ b.nodes, ∀ p ∈ n.successors, p.1 ≠ 0) :
    ∀ n ∈ (b.add_edge fr t lab).nodes, ∀ p ∈ n.successors, p.1 ≠ 0 := by
  unfold Builder.add_edge
  split
  · intro n hn p hp
    rcases mem_listModify hn with h1 | ⟨m, hm, he⟩
    · rcases mem_listModify h1 with h2 | ⟨m, hm, he⟩
      · exact h n h2 p hp
      · subst he
        simp only [CFGNode.add_successor, List.mem_append, List.mem_singleton] at hp
        rcases hp with h3 | h3
        · exact h m hm p h3
        · subst h3; exact ht
    · subst he
      simp only [CFGNode.add_predecessor] at hp
      rcases mem_listModify hm with h2 | ⟨m2, hm2, he2⟩
      · exact h m h2 p hp
      · subst he2
        simp only [CFGNode.add_successor, List.mem_append, List.mem_singleton] at hp
        rcases hp with h3 | h3
        · exact h m2 hm2 p h3
        · subst h3; exact ht
  · exact h

theorem foldl_add_edge_nodes_length (xs : List Nat) (t : Nat) (b : Builder) :
    (xs.foldl (fun acc e => acc.add_edge e t "") b).nodes.length = b.nodes.length := by
  induction xs generalizing b with
  | nil => rfl
  | cons x r ih => simp [List.foldl_cons, ih, add_edge_nodes_length]

theorem foldl_add_edge_id (xs : List Nat) (t : Nat) (b : Builder) :
    (xs.foldl (fun acc e => acc.add_edge e t "") b).current_node_id = b.current_node_id := by
  induction xs generalizing b with
  | nil => rfl
  | cons x r ih => simp [List.foldl_cons, ih, add_edge_id]

theorem foldl_add_edge_exits (xs : List Nat) (t : Nat) (b : Builder) :
    (xs.foldl (fun acc e => acc.add_edge e t "") b).current_exits = b.current_exits := by
  induction xs generalizing b with
  | nil => rfl
  | cons x r ih => simp [List.foldl_cons, ih, add_edge_exits]

theorem foldl_add_edge_metaAt (xs : List Nat) (t : Nat) (b : Builder) (j : Nat) :
    metaAt (xs.foldl (fun acc e => acc.add_edge e t "") b).nodes j = metaAt b.nodes j := by
  induction xs generalizing b with
  | nil => rfl
  | cons x r ih => simp [List.foldl_cons, ih, add_edge_metaAt]

theorem foldl_add_edge_countType (ty : String) (xs : List Nat) (t : Nat) (b : Builder) :
    countType ty (xs.foldl (fun acc e => acc.add_edge e t "") b).nodes =
      countType ty b.nodes := by
  induction xs generalizing b with
  | nil => rfl
  | cons x r ih => simp [List.foldl_cons, ih, add_edge_countType]

theorem foldl_add_edge_totalEdges_le (xs : List Nat) (t : Nat) (b : Builder) :
    totalEdges (xs.foldl (fun acc e => acc.add_edge e t "") b).nodes ≤
      totalEdges b.nodes + xs.length := by
  induction xs generalizing b with
  | nil => simp
  | cons x r ih =>
    simp only [List.foldl_cons, List.length_cons]
    have h1 := ih (b.add_edge x t "")
    have h2 := add_edge_totalEdges_le b x t ""
    omega

theorem foldl_add_edge_noZero (xs : List Nat) (t : Nat) (b : Builder) (ht : t ≠ 0)
    (h : ∀ n ∈ b.nodes, ∀ p ∈ n.successors, p.1 ≠ 0) :
    ∀ n ∈ (xs.foldl (fun acc e => acc.add_edge e t "") b).nodes,
      ∀ p ∈ n.successors, p.1 ≠ 0 := by
  induction xs generalizing b with
  | nil => exact h
  | cons x r ih =>
    simp only [List.foldl_cons]
    exact ih (b.add_edge x t "") (add_edge_noZero b x t "" ht h)

theorem connect_nodes_length (b : Builder) (t : Nat) :
    (b.connect_exits_to_node t).nodes.length = b.nodes.length := by
  simp [Builder.connect_exits_to_node, foldl_add_edge_nodes_length]

theorem connect_id (b : Builder) (t : Nat) :
    (b.connect_exits_to_node t).current_node_id = b.current_node_id := by
  simp [Builder.connect_exits_to_node, foldl_add_edge_id]

theorem connect_exits (b : Builder) (t : Nat) :
    (b.connect_exits_to_node t).current_exits = [t] := by
  simp [Builder.connect_exits_to_node]

theorem connect_metaAt (b : Builder) (t : Nat) (j : Nat) :
    metaAt (b.connect_exits_to_node t).nodes j = metaAt b.nodes j := by
  simp [Builder.connect_exits_to_node, foldl_add_edge_metaAt]

theorem connect_countType (ty : String) (b : Builder) (t : Nat) :
    countType ty (b.connect_exits_to_node t).nodes = countType ty b.nodes := by
  simp [Builder.connect_exits_to_node, foldl_add_edge_countType]

theorem connect_totalEdges_le (b : Builder) (t : Nat) :
    totalEdges (b.connect_exits_to_node t).nodes ≤
      totalEdges b.nodes + b.current_exits.length := by
  simp only [Builder.connect_exits_to_node]
  exact foldl_add_edge_totalEdges_le b.current_exits t b

theorem connect_empty_frontier (b : Builder) (t : Nat) (h : b.current_exits = []) :
    (b.connect_exits_to_node t).nodes = b.nodes ∧
    (b.connect_exits_to_node t).current_exits = [t] := by
  simp [Builder.connect_exits_to_node, h]

theorem create_nodes_length (b : Builder) (lab ty : String) (c : Option String) :
    (b.create_node lab ty c).1.nodes.length = b.nodes.length + 1 := by
  simp [Builder.create_node]

theorem create_id (b : Builder) (lab ty : String) (c : Option String) :
    (b.create_node lab ty c).1.current_node_id = b.current_node_id + 1 := rfl

theorem create_exits (b : Builder) (lab ty : String) (c : Option String) :
    (b.create_node lab ty c).1.current_exits = b.current_exits := rfl

theorem create_countType (tq : String) (b : Builder) (lab ty : String) (c : Option String) :
    countType tq (b.create_node lab ty c).1.nodes =
      countType tq b.nodes + (if ty == tq then 1 else 0) := by
  simp only [Builder.create_node, countType, List.countP_append, List.countP_cons,
    List.countP_nil]
  omega

theorem create_totalEdges (b : Builder) (lab ty : String) (c : Option String) :
    totalEdges (b.create_node lab ty c).1.nodes = totalEdges b.nodes := by
  simp [Builder.create_node, totalEdges]

theorem totalEdges_append_one (l : List CFGNode) (n : CFGNode) :
    totalEdges (l ++ [n]) = totalEdges l + n.successors.length := by
  simp [totalEdges]

theorem create_snd (b : Builder) (lab ty : String) (c : Option String) :
    (b.create_node lab ty c).2 = b.current_node_id := rfl

/-- C2 counterexample: for the program `for i in r: x = 1`, the claimed
while-style relabeling would give the decision's body edge the label "False"
(its target is not the decision itself); in fact `visit_For` performs no
relabeling at all and both outgoing edges of the decision stay unlabeled. -/
theorem c2_for_edges_unlabeled :
    ((buildCFG [.sfor "i" "r" [.assign ["x"] "1"]]).nodes.get? 1).map
        (fun n => (n.node_type, n.label, n.successors)) =
      some ("decision", "for i in r", [(2, ""), (3, "")]) := by rfl

/-- C2 (amended): a for loop is built exactly like a while loop whose
condition renders as "for `<binding>` in `<iterable>`", except that the final
edge-relabeling step of the while visitor is not applied: the while build
equals the relabeling applied on top of the for build. -/
theorem c2_for_is_while_without_relabel (b : Builder) (t i : String) (body : List Stmt) :
    visitStmt b (.swhile (s!"for {t} in {i}") body) =
      relabelLoopEdges (visitStmt b (.sfor t i body)) b.current_node_id := by
  rfl

/-- The classification table as the spec words it: an output-producing match
gives Output, an input-producing match gives Input, anything else Call,
checked in that order. -/
def classifyCallSpec (txt : String) : String :=
  let low := strToLower txt
  if strContains low "print" then "output"
  else if strContains low "input" then "input"
  else "call"

theorem exprCallNodeType_eq_spec (txt : String) :
    exprCallNodeType txt = classifyCallSpec txt := by
  unfold exprCallNodeType classifyCallSpec
  cases h1 : strContains (strToLower txt) "print" <;>
    cases h2 : strContains (strToLower txt) "input" <;> simp [h1, h2]

/-- C7 (amended): an expression statement that is a call is classified by a
case-insensitive substring scan of the whole rendered call text — containing
"print" gives Output, otherwise containing "input" gives Input, otherwise
Call — and exactly one node is created, with the frontier connected to it. -/
theorem c7_call_classification (b : Builder) (txt : String) :
    visitStmt b (.exprCall txt) =
      (b.create_node txt (classifyCallSpec txt) none).1.connect_exits_to_node
        b.current_node_id ∧
    (visitStmt b (.exprCall txt)).nodes.length = b.nodes.length + 1 := by
  constructor
  · simp only [visitStmt, exprCallNodeType_eq_spec, create_snd]
  · simp [visitStmt, connect_nodes_length, create_nodes_length]

/-- The label of the Output node for a Return statement. -/
def retLabel : Option String → String
  | some e => s!"return {e}"
  | none => "return"

/-- C8 (amended): visiting Return creates exactly one Output node labeled
"return `<expr>`" or bare "return", connects the frontier to it, and empties
the frontier; connecting an empty frontier adds no edges, so the node created
for the following statement gets no incoming edge from the terminated path
(none at all when it is a straight-line statement — a loop decision can still
receive back edges from its own body). -/
theorem c8_return_behaviour :
    (∀ (b : Builder) (v : Option String),
        (visitStmt b (.ret v)).current_exits = [] ∧
        (visitStmt b (.ret v)).nodes.length = b.nodes.length + 1 ∧
        metaAt (visitStmt b (.ret v)).nodes b.nodes.length =
          some (b.current_node_id, retLabel v, "output", none)) ∧
    (∀ (b : Builder) (t : Nat), b.current_exits = [] →
        (b.connect_exits_to_node t).nodes = b.nodes) ∧
    inDegree (buildCFG [.ret none, .assign ["y"] "2"]).nodes 2 = 0 := by
  refine ⟨fun b v => ⟨rfl, ?_, ?_⟩, fun b t h => (connect_empty_frontier b t h).1, by rfl⟩
  · simp [visitStmt, connect_nodes_length, create_nodes_length]
  · cases v with
    | none =>
      simp only [visitStmt, retLabel]
      rw [connect_metaAt]
      simp [Builder.create_node, metaAt, List.get?_concat_length, nodeMeta]
    | some e =>
      simp only [visitStmt, retLabel]
      rw [connect_metaAt]
      simp [Builder.create_node, metaAt, List.get?_concat_length, nodeMeta]

/-- Closed instance of `c8_return_behaviour`: connecting with an empty
frontier on a concrete builder adds no edges. -/
theorem c8_return_behaviour_witness :
    ((⟨[⟨0, "START", "start", none, [], []⟩], 1, []⟩ : Builder).current_exits = []) ∧
    ((⟨[⟨0, "START", "start", none, [], []⟩], 1, []⟩ : Builder).connect_exits_to_node 0).nodes =
      (⟨[⟨0, "START", "start", none, [], []⟩], 1, []⟩ : Builder).nodes :=
  ⟨rfl, c8_return_behaviour.2.1 ⟨[⟨0, "START", "start", none, [], []⟩], 1, []⟩ 0 rfl⟩

/-- Creating a node and connecting to it while the frontier is empty adds the
node but no edge, and the new node becomes the sole frontier entry. -/
theorem create_connect_empty_frontier (b : Builder) (lab ty : String) (c : Option String)
    (h : b.current_exits = []) :
    totalEdges ((b.create_node lab ty c).1.connect_exits_to_node
      (b.create_node lab ty c).2).nodes = totalEdges b.nodes ∧
    ((b.create_node lab ty c).1.connect_exits_to_node
      (b.create_node lab ty c).2).current_exits = [b.current_node_id] ∧
    ((b.create_node lab ty c).1.connect_exits_to_node
      (b.create_node lab ty c).2).nodes.length = b.nodes.length + 1 := by
  have hce : ((b.create_node lab ty c).1).current_exits = [] := by
    rw [create_exits]; exact h
  have hc := connect_empty_frontier ((b.create_node lab ty c).1)
    ((b.create_node lab ty c).2) hce
  refine ⟨?_, ?_, ?_⟩
  · rw [hc.1, create_totalEdges]
  · rw [hc.2, create_snd]
  · rw [hc.1, create_nodes_length]

/-- C10: statements after a Return are not skipped.  Visiting an assignment
with an empty frontier still creates exactly one node, adds no edge, and makes
that node the new frontier; in `return` then `a = 1` then `b = 2` the two dead
nodes are chained (edge 2 → 3), node 2 has no incoming edge, and all five
nodes and three edges are counted by the cyclomatic complexity. -/
theorem c10_dead_code_counted :
    (∀ (b : Builder) (targets : List String) (v : String), b.current_exits = [] →
        (visitStmt b (.assign targets v)).nodes.length = b.nodes.length + 1 ∧
        totalEdges (visitStmt b (.assign targets v)).nodes = totalEdges b.nodes ∧
        (visitStmt b (.assign targets v)).current_exits = [b.current_node_id]) ∧
    ((buildCFG [.ret none, .assign ["a"] "1", .assign ["b"] "2"]).nodes.length = 5 ∧
     totalEdges (buildCFG [.ret none, .assign ["a"] "1", .assign ["b"] "2"]).nodes = 3 ∧
     inDegree (buildCFG [.ret none, .assign ["a"] "1", .assign ["b"] "2"]).nodes 2 = 0 ∧
     ((buildCFG [.ret none, .assign ["a"] "1", .assign ["b"] "2"]).nodes.get? 2).map
        (fun n => n.successors) = some [(3, "")] ∧
     calculate_cyclomatic_complexity
        (buildCFG [.ret none, .assign ["a"] "1", .assign ["b"] "2"]).nodes = 1) := by
  constructor
  · intro b targets v h
    simp only [visitStmt]
    exact ⟨(create_connect_empty_frontier b _ "process" none h).2.2,
      (create_connect_empty_frontier b _ "process" none h).1,
      (create_connect_empty_frontier b _ "process" none h).2.1⟩
  · exact ⟨by rfl, by rfl, by rfl, by rfl, by rfl⟩

/-- Closed instance of the universal part of `c10_dead_code_counted`. -/
theorem c10_dead_code_counted_witness :
    ((⟨[⟨0, "START", "start", none, [], []⟩], 1, []⟩ : Builder).current_exits = []) ∧
    (visitStmt (⟨[⟨0, "START", "start", none, [], []⟩], 1, []⟩ : Builder)
        (.assign ["z"] "3")).nodes.length = 2 :=
  ⟨rfl, (c10_dead_code_counted.1 ⟨[⟨0, "START", "start", none, [], []⟩], 1, []⟩
    ["z"] "3" rfl).1⟩

/-- C8 counterexample: in `return` followed by `while c > 0: y = 1`, the node
created for the statement immediately following the Return is the loop
decision (node 2, kind "decision"), and it does receive an incoming edge —
the back edge from its own body node — so "receives no incoming edge" fails
as stated. -/
theorem c8_following_node_counterexample :
    ((buildCFG [.ret none, .swhile "c > 0" [.assign ["y"] "1"]]).nodes.get? 2).map
        (fun n => n.node_type) = some "decision" ∧
    inDegree (buildCFG [.ret none, .swhile "c > 0" [.assign ["y"] "1"]]).nodes 2 = 1 := by
  exact ⟨by rfl, by rfl⟩

theorem countType_listModify (t : String) (l : List CFGNode) (i : Nat)
    (f : CFGNode → CFGNode) (hf : ∀ n, (f n).node_type = n.node_type) :
    countType t (listModify l i f) = countType t l :=
  countP_listModify _ _ _ _ (fun n => by rw [hf])

theorem countType_listModify_succs (t : String) (l : List CFGNode) (i : Nat)
    (ns : List (Nat × String)) :
    countType t (listModify l i (fun n => { n with successors := ns })) = countType t l :=
  countType_listModify t l i _ (fun n => rfl)

theorem countType_listModify_mapSuccs (t : String) (l : List CFGNode) (i : Nat)
    (g : Nat × String → Nat × String) :
    countType t (listModify l i (fun n => { n with successors := n.successors.map g })) =
      countType t l :=
  countType_listModify t l i _ (fun n => rfl)

mutual

theorem countType_visitStmt (t : String) (b : Builder) :
    (s : Stmt) → countType t (visitStmt b s).nodes = countType t b.nodes + createdOfType t s
  | .funcdefn name args body => by
      simp only [visitStmt, createdOfType]
      by_cases hr : body.any isReturnStmt = true
      · simp only [if_pos hr]
        rw [countType_visitStmts t _ body, connect_countType, create_countType]
        omega
      · simp only [if_neg hr]
        rw [connect_countType, create_countType,
          countType_visitStmts t _ body, connect_countType, create_countType]
        omega
  | .sif test body orelse => by
      simp only [visitStmt, createdOfType]
      rw [countType_listModify_succs,
        countType_visitStmts t _ orelse, countType_visitStmts t _ body,
        connect_countType, create_countType]
      omega
  | .swhile test body => by
      simp only [visitStmt, createdOfType, relabelLoopEdges]
      rw [countType_listModify_mapSuccs,
        foldl_add_edge_countType, countType_visitStmts t _ body,
        connect_countType, create_countType]
      omega
  | .sfor target iter body => by
      simp only [visitStmt, createdOfType]
      rw [foldl_add_edge_countType, countType_visitStmts t _ body,
        connect_countType, create_countType]
      omega
  | .ret v => by
      simp only [visitStmt, createdOfType]
      rw [connect_countType, create_countType]
  | .assign targets value => by
      simp only [visitStmt, createdOfType]
      rw [connect_countType, create_countType]
  | .augassign target op value => by
      simp only [visitStmt, createdOfType]
      rw [connect_countType, create_countType]
  | .exprCall txt => by
      simp only [visitStmt, createdOfType]
      rw [connect_countType, create_countType]
  | .exprOther txt => by
      simp only [visitStmt, createdOfType]
      rw [connect_countType, create_countType]
  | .other txt => by
      simp only [visitStmt, createdOfType]
      by_cases ht : txt.trim.length > 0
      · simp only [if_pos ht]
        rw [connect_countType, create_countType]
      · simp only [if_neg ht]
        omega

theorem countType_visitStmts (t : String) (b : Builder) :
    (ss : List Stmt) →
      countType t (visitStmts b ss).nodes = countType t b.nodes + createdList t ss
  | [] => by simp [visitStmts, createdList]
  | s :: r => by
      simp only [visitStmts, createdList]
      rw [countType_visitStmts t (visitStmt b s) r, countType_visitStmt t b s]
      omega

end

theorem exprCallNodeType_ne_start (txt : String) :
    (exprCallNodeType txt == "start") = false := by
  simp only [exprCallNodeType]
  split
  · split <;> rfl
  · rfl

mutual

theorem createdStart_eq_numFuncDefs :
    (s : Stmt) → createdOfType "start" s = numFuncDefs s
  | .funcdefn name args body => by
      simp only [createdOfType, numFuncDefs]
      rw [createdStartList_eq_numFuncDefsList body]
      by_cases hr : body.any isReturnStmt = true
      · simp only [if_pos hr]; rfl
      · simp only [if_neg hr]; rfl
  | .sif test body orelse => by
      simp only [createdOfType, numFuncDefs]
      rw [createdStartList_eq_numFuncDefsList body,
        createdStartList_eq_numFuncDefsList orelse]
      simp
  | .swhile test body => by
      simp only [createdOfType, numFuncDefs]
      rw [createdStartList_eq_numFuncDefsList body]
      simp
  | .sfor target iter body => by
      simp only [createdOfType, numFuncDefs]
      rw [createdStartList_eq_numFuncDefsList body]
      simp
  | .ret v => rfl
  | .assign targets value => rfl
  | .augassign target op value => rfl
  | .exprCall txt => by
      simp only [createdOfType, numFuncDefs, exprCallNodeType_ne_start]
      rfl
  | .exprOther txt => rfl
  | .other txt => by
      simp only [createdOfType, numFuncDefs]
      by_cases ht : txt.trim.length > 0
      · simp only [if_pos ht]; rfl
      · simp only [if_neg ht]

theorem createdStartList_eq_numFuncDefsList :
    (ss : List Stmt) → createdList "start" ss = numFuncDefsList ss
  | [] => rfl
  | s :: r => by
      simp only [createdList, numFuncDefsList]
      rw [createdStart_eq_numFuncDefs s, createdStartList_eq_numFuncDefsList r]

end

/-- Builder well-formedness maintained by the whole visitor: the id counter
equals the table size (dict keys are dense 0..n-1), the table is nonempty,
no edge targets node 0, and node 0 keeps the module-START metadata. -/
structure InvG (nodes : List CFGNode) (idc : Nat) : Prop where
  idlen : idc = nodes.length
  pos : 1 ≤ nodes.length
  noZero : ∀ n ∈ nodes, ∀ p ∈ n.successors, p.1 ≠ 0
  startMeta : metaAt nodes 0 = some (0, "START", "start", none)

/-- `InvG` stated of a builder's own table and counter. -/
abbrev InvB (b : Builder) : Prop := InvG b.nodes b.current_node_id

theorem metaAt_listModify (l : List CFGNode) (i : Nat) (f : CFGNode → CFGNode) (j : Nat)
    (hf : ∀ n, nodeMeta (f n) = nodeMeta n) :
    metaAt (listModify l i f) j = metaAt l j := by
  simp only [metaAt, get?_listModify]
  split
  · cases h : l.get? j <;> simp [hf]
  · rfl

theorem metaAt_append (l : List CFGNode) (n : CFGNode) (j : Nat) (h : j < l.length) :
    metaAt (l ++ [n]) j = metaAt l j := by
  simp only [metaAt]
  rw [List.get?_append h]

theorem InvB_exits (b : Builder) (e : List Nat) (h : InvB b) :
    InvB { b with current_exits := e } := h

theorem InvB_create (b : Builder) (lab ty : String) (c : Option String) (h : InvB b) :
    InvB (b.create_node lab ty c).1 := by
  refine ⟨?_, ?_, ?_, ?_⟩
  · simp [Builder.create_node, h.idlen]
  · simp only [Builder.create_node, List.length_append, List.length_cons, List.length_nil]
    omega
  · intro n hn p hp
    simp only [Builder.create_node, List.mem_append, List.mem_singleton] at hn
    rcases hn with h1 | h1
    · exact h.noZero n h1 p hp
    · subst h1; simp at hp
  · simp only [Builder.create_node]
    rw [metaAt_append _ _ _ (by have hp := h.pos; omega : 0 < b.nodes.length)]
    exact h.startMeta

theorem InvB_add_edge (b : Builder) (fr t : Nat) (lab : String) (ht : t ≠ 0) (h : InvB b) :
    InvB (b.add_edge fr t lab) := by
  refine ⟨?_, ?_, ?_, ?_⟩
  · rw [add_edge_id, add_edge_nodes_length]; exact h.idlen
  · rw [add_edge_nodes_length]; exact h.pos
  · exact add_edge_noZero b fr t lab ht h.noZero
  · rw [add_edge_metaAt]; exact h.startMeta

theorem InvB_foldl_add_edge (xs : List Nat) (t : Nat) (b : Builder) (ht : t ≠ 0)
    (h : InvB b) :
    InvB (xs.foldl (fun acc e => acc.add_edge e t "") b) := by
  induction xs generalizing b with
  | nil => exact h
  | cons x r ih =>
    simp only [List.foldl_cons]
    exact ih (b.add_edge x t "") (InvB_add_edge b x t "" ht h)

theorem InvB_connect (b : Builder) (t : Nat) (ht : t ≠ 0) (h : InvB b) :
    InvB (b.connect_exits_to_node t) := by
  simp only [Builder.connect_exits_to_node]
  exact InvB_exits _ _ (InvB_foldl_add_edge b.current_exits t b ht h)

theorem metaAt_listModify_succs (l : List CFGNode) (i : Nat) (ns : List (Nat × String))
    (j : Nat) :
    metaAt (listModify l i (fun n => { n with successors := ns })) j = metaAt l j :=
  metaAt_listModify l i _ j (fun n => rfl)

theorem metaAt_listModify_mapSuccs (l : List CFGNode) (i : Nat)
    (g : Nat × String → Nat × String) (j : Nat) :
    metaAt (listModify l i (fun n => { n with successors := n.successors.map g })) j =
      metaAt l j :=
  metaAt_listModify l i _ j (fun n => rfl)

theorem noZero_listModify_subset (l : List CFGNode) (i : Nat) (ns : List (Nat × String))
    (h : ∀ n ∈ l, ∀ p ∈ n.successors, p.1 ≠ 0) (hns : ∀ p ∈ ns, p.1 ≠ 0) :
    ∀ n ∈ listModify l i (fun n => { n with successors := ns }),
      ∀ p ∈ n.successors, p.1 ≠ 0 := by
  intro n hn p hp
  rcases mem_listModify hn with h1 | ⟨m, hm, he⟩
  · exact h n h1 p hp
  · subst he
    exact hns p hp

theorem noZero_relabelLoop (b : Builder) (dec : Nat)
    (h : ∀ n ∈ b.nodes, ∀ p ∈ n.successors, p.1 ≠ 0) :
    ∀ n ∈ (relabelLoopEdges b dec).nodes, ∀ p ∈ n.successors, p.1 ≠ 0 := by
  intro n hn p hp
  simp only [relabelLoopEdges] at hn
  rcases mem_listModify hn with h1 | ⟨m, hm, he⟩
  · exact h n h1 p hp
  · subst he
    simp only [List.mem_map] at hp
    rcases hp with ⟨q, hq, he2⟩
    have hq1 : q.1 ≠ 0 := h m hm q hq
    by_cases hd : (q.1 == dec) = true
    · rw [if_pos hd] at he2
      subst he2
      exact hq1
    · rw [if_neg hd] at he2
      subst he2
      exact hq1

theorem InvB_relabelLoop (b : Builder) (dec : Nat) (h : InvB b) :
    InvB (relabelLoopEdges b dec) := by
  refine ⟨?_, ?_, noZero_relabelLoop b dec h.noZero, ?_⟩
  · simp only [relabelLoopEdges]
    rw [listModify_length]
    exact h.idlen
  · simp only [relabelLoopEdges]
    rw [listModify_length]
    exact h.pos
  · simp only [relabelLoopEdges]
    rw [metaAt_listModify_mapSuccs]
    exact h.startMeta

theorem ifRelabelSuccs_noZero (succs : List (Nat × String))
    (h : ∀ p ∈ succs, p.1 ≠ 0) :
    ∀ p ∈ ifRelabelSuccs succs, p.1 ≠ 0 := by
  intro p hp
  simp only [ifRelabelSuccs] at hp
  cases hf : succs.filter (fun w => w.2 == "") with
  | nil => rw [hf] at hp; simp at hp
  | cons t rest =>
    rw [hf] at hp
    have htmem : t ∈ succs :=
      (List.mem_filter.mp (hf ▸ List.mem_cons_self t rest)).1
    rcases List.mem_cons.mp hp with h1 | h1
    · subst h1
      exact h t htmem
    · simp only [List.mem_map] at h1
      rcases h1 with ⟨q, hq, he⟩
      have hqf : q ∈ succs.filter (fun w => w.2 == "") := by
        rw [hf]; exact List.mem_cons_of_mem t hq
      have hqmem : q ∈ succs := (List.mem_filter.mp hqf).1
      subst he
      exact h q hqmem

theorem succsAt_noZero (l : List CFGNode) (dec : Nat)
    (h : ∀ n ∈ l, ∀ p ∈ n.successors, p.1 ≠ 0) :
    ∀ p ∈ (((l.get? dec).map (fun n => n.successors)).getD []), p.1 ≠ 0 := by
  intro p hp
  cases hd : l.get? dec with
  | none => rw [hd] at hp; simp at hp
  | some nd =>
    rw [hd] at hp
    simp only [Option.map_some', Option.getD_some] at hp
    exact h nd (List.get?_mem hd) p hp

theorem InvB_create_connect (b : Builder) (lab ty : String) (c : Option String)
    (h : InvB b) :
    InvB ((b.create_node lab ty c).1.connect_exits_to_node (b.create_node lab ty c).2) := by
  refine InvB_connect _ _ ?_ (InvB_create _ _ _ _ h)
  rw [create_snd]
  have h1 := h.idlen
  have h2 := h.pos
  omega

mutual

theorem InvB_visitStmt (b : Builder) :
    (s : Stmt) → InvB b → InvB (visitStmt b s)
  | .funcdefn name args body, h => by
      simp only [visitStmt]
      by_cases hr : body.any isReturnStmt = true
      · simp only [if_pos hr]
        exact InvB_visitStmts _ body (InvB_create_connect _ _ _ _ h)
      · simp only [if_neg hr]
        exact InvB_create_connect _ _ _ _
          (InvB_visitStmts _ body (InvB_create_connect _ _ _ _ h))
  | .sif test body orelse, h => by
      simp only [visitStmt]
      have h4 : InvB (visitStmts { visitStmts
          { (b.create_node test "decision" (some test)).1.connect_exits_to_node
              (b.create_node test "decision" (some test)).2 with
            current_exits := [(b.create_node test "decision" (some test)).2] } body with
          current_exits := [(b.create_node test "decision" (some test)).2] } orelse) :=
        InvB_visitStmts _ orelse
          (InvB_visitStmts _ body (InvB_create_connect _ _ _ _ h))
      refine ⟨?_, ?_, ?_, ?_⟩
      · rw [listModify_length]
        exact h4.idlen
      · rw [listModify_length]
        exact h4.pos
      · exact noZero_listModify_subset _ _ _ h4.noZero
          (ifRelabelSuccs_noZero _ (succsAt_noZero _ _ h4.noZero))
      · rw [metaAt_listModify_succs]
        exact h4.startMeta
  | .swhile test body, h => by
      simp only [visitStmt]
      apply InvB_relabelLoop
      apply InvB_exits
      apply InvB_foldl_add_edge _ _ _ ?_
        (InvB_visitStmts _ body (InvB_create_connect _ _ _ _ h))
      rw [create_snd]
      have h1 := h.idlen
      have h2 := h.pos
      omega
  | .sfor target iter body, h => by
      simp only [visitStmt]
      apply InvB_exits
      apply InvB_foldl_add_edge _ _ _ ?_
        (InvB_visitStmts _ body (InvB_create_connect _ _ _ _ h))
      rw [create_snd]
      have h1 := h.idlen
      have h2 := h.pos
      omega
  | .ret v, h => by
      simp only [visitStmt]
      exact InvB_exits _ _ (InvB_create_connect _ _ _ _ h)
  | .assign targets value, h => by
      simp only [visitStmt]
      exact InvB_create_connect _ _ _ _ h
  | .augassign target op value, h => by
      simp only [visitStmt]
      exact InvB_create_connect _ _ _ _ h
  | .exprCall txt, h => by
      simp only [visitStmt]
      exact InvB_create_connect _ _ _ _ h
  | .exprOther txt, h => by
      simp only [visitStmt]
      exact InvB_create_connect _ _ _ _ h
  | .other txt, h => by
      simp only [visitStmt]
      by_cases ht : txt.trim.length > 0
      · simp only [if_pos ht]
        exact InvB_create_connect _ _ _ _ h
      · simp only [if_neg ht]
        exact h

theorem InvB_visitStmts (b : Builder) :
    (ss : List Stmt) → InvB b → InvB (visitStmts b ss)
  | [], h => h
  | s :: r, h => InvB_visitStmts (visitStmt b s) r (InvB_visitStmt b s h)

end

/-- The straight-line bound used for branch-free programs: the total edge
count plus the number of open exits never exceeds the node count. -/
def EdgeBound (nodes : List CFGNode) (exits : List Nat) : Prop :=
  totalEdges nodes + exits.length ≤ nodes.length

theorem edgeBound_create_connect (b : Builder) (lab ty : String) (c : Option String)
    (h : EdgeBound b.nodes b.current_exits) :
    EdgeBound
      ((b.create_node lab ty c).1.connect_exits_to_node (b.create_node lab ty c).2).nodes
      ((b.create_node lab ty c).1.connect_exits_to_node (b.create_node lab ty c).2).current_exits := by
  unfold EdgeBound at h ⊢
  have h1 := connect_totalEdges_le (b.create_node lab ty c).1 (b.create_node lab ty c).2
  rw [create_totalEdges, create_exits] at h1
  have h2 := connect_nodes_length (b.create_node lab ty c).1 (b.create_node lab ty c).2
  rw [create_nodes_length] at h2
  rw [connect_exits, h2]
  simp only [List.length_cons, List.length_nil]
  omega

theorem edgeBound_empty (nodes : List CFGNode) (exits : List Nat)
    (h : EdgeBound nodes exits) : EdgeBound nodes [] := by
  unfold EdgeBound at h ⊢
  simp only [List.length_nil]
  omega

mutual

theorem edgeBound_visitStmt (b : Builder) :
    (s : Stmt) → noBranchStmt s = true → EdgeBound b.nodes b.current_exits →
      EdgeBound (visitStmt b s).nodes (visitStmt b s).current_exits
  | .funcdefn name args body, hnb, h => by
      simp only [visitStmt]
      simp only [noBranchStmt] at hnb
      by_cases hr : body.any isReturnStmt = true
      · simp only [if_pos hr]
        exact edgeBound_visitStmts _ body hnb (edgeBound_create_connect _ _ _ _ h)
      · simp only [if_neg hr]
        exact edgeBound_create_connect _ _ _ _
          (edgeBound_visitStmts _ body hnb (edgeBound_create_connect _ _ _ _ h))
  | .sif test body orelse, hnb, _ => by simp [noBranchStmt] at hnb
  | .swhile test body, hnb, _ => by simp [noBranchStmt] at hnb
  | .sfor target iter body, hnb, _ => by simp [noBranchStmt] at hnb
  | .ret v, _, h => by
      simp only [visitStmt]
      exact edgeBound_empty _ _ (edgeBound_create_connect _ _ _ _ h)
  | .assign targets value, _, h => by
      simp only [visitStmt]
      exact edgeBound_create_connect _ _ _ _ h
  | .augassign target op value, _, h => by
      simp only [visitStmt]
      exact edgeBound_create_connect _ _ _ _ h
  | .exprCall txt, _, h => by
      simp only [visitStmt]
      exact edgeBound_create_connect _ _ _ _ h
  | .exprOther txt, _, h => by
      simp only [visitStmt]
      exact edgeBound_create_connect _ _ _ _ h
  | .other txt, _, h => by
      simp only [visitStmt]
      by_cases ht : txt.trim.length > 0
      · simp only [if_pos ht]
        exact edgeBound_create_connect _ _ _ _ h
      · simp only [if_neg ht]
        exact h

theorem edgeBound_visitStmts (b : Builder) :
    (ss : List Stmt) → noBranchList ss = true → EdgeBound b.nodes b.current_exits →
      EdgeBound (visitStmts b ss).nodes (visitStmts b ss).current_exits
  | [], _, h => h
  | s :: r, hnb, h => by
      simp only [noBranchList, Bool.and_eq_true] at hnb
      exact edgeBound_visitStmts (visitStmt b s) r hnb.2
        (edgeBound_visitStmt b s hnb.1 h)

end

mutual

theorem noBranch_of_zero_decisions :
    (s : Stmt) → createdOfType "decision" s = 0 → noBranchStmt s = true
  | .funcdefn name args body, h => by
      simp only [createdOfType] at h
      simp only [noBranchStmt]
      refine noBranchList_of_zero_decisions body ?_
      omega
  | .sif test body orelse, h => by
      simp only [createdOfType] at h
      simp at h
  | .swhile test body, h => by
      simp only [createdOfType] at h
      simp at h
  | .sfor target iter body, h => by
      simp only [createdOfType] at h
      simp at h
  | .ret v, _ => rfl
  | .assign targets value, _ => rfl
  | .augassign target op value, _ => rfl
  | .exprCall txt, _ => rfl
  | .exprOther txt, _ => rfl
  | .other txt, _ => rfl

theorem noBranchList_of_zero_decisions :
    (ss : List Stmt) → createdList "decision" ss = 0 → noBranchList ss = true
  | [], _ => rfl
  | s :: r, h => by
      simp only [createdList] at h
      simp only [noBranchList, Bool.and_eq_true]
      exact ⟨noBranch_of_zero_decisions s (by omega),
        noBranchList_of_zero_decisions r (by omega)⟩

end

/-- `buildCFG` unfolded onto the explicit initial builder: the module START
node, the visited program, the END node, and the final connect. -/
theorem buildCFG_eq (prog : List Stmt) :
    buildCFG prog =
      ((visitStmts ⟨[⟨0, "START", "start", none, [], []⟩], 1, [0]⟩ prog).create_node
          "END" "end" none).1.connect_exits_to_node
        ((visitStmts ⟨[⟨0, "START", "start", none, [], []⟩], 1, [0]⟩ prog).create_node
          "END" "end" none).2 := rfl

/-- C4 counterexample: for `def f(x): y = x` the function's synthetic entry
(node 1, kind "start") receives an incoming edge from the module START node,
so "no Start-kind node has any incoming edge" fails as stated. -/
theorem c4_function_start_has_incoming :
    ((buildCFG [.funcdefn "f" ["x"] [.assign ["y"] "x"]]).nodes.get? 1).map
        (fun n => n.node_type) = some "start" ∧
    ((buildCFG [.funcdefn "f" ["x"] [.assign ["y"] "x"]]).nodes.get? 0).map
        (fun n => n.successors) = some [(1, "")] := by
  exact ⟨by rfl, by rfl⟩

/-- C4 (amended): every completed graph has exactly `1 + (number of function
definitions, nested included)` Start-kind nodes; the module's Start node is
node 0, keeps its metadata, and never receives an incoming edge — but a
function's synthetic entry is connected from the frontier that precedes it,
so it can have incoming edges. -/
theorem c4_start_nodes (prog : List Stmt) :
    countType "start" (buildCFG prog).nodes = 1 + numFuncDefsList prog ∧
    metaAt (buildCFG prog).nodes 0 = some (0, "START", "start", none) ∧
    ∀ n ∈ (buildCFG prog).nodes, ∀ p ∈ n.successors, p.1 ≠ 0 := by
  have hInit : InvB (⟨[⟨0, "START", "start", none, [], []⟩], 1, [0]⟩ : Builder) := by
    refine ⟨rfl, by decide, ?_, rfl⟩
    intro n hn p hp
    simp only [List.mem_singleton] at hn
    subst hn
    simp at hp
  have hb3 := InvB_visitStmts _ prog hInit
  have hfin : InvB (buildCFG prog) := by
    rw [buildCFG_eq]
    exact InvB_create_connect _ _ _ _ hb3
  refine ⟨?_, hfin.startMeta, hfin.noZero⟩
  rw [buildCFG_eq, connect_countType, create_countType, countType_visitStmts]
  rw [createdStartList_eq_numFuncDefsList]
  have h1 : countType "start"
      (⟨[⟨0, "START", "start", none, [], []⟩], 1, [0]⟩ : Builder).nodes = 1 := rfl
  have h2 : (if ("end" == "start") = true then 1 else 0) = 0 := rfl
  omega

/-- Closed instance of `c4_start_nodes` on a concrete program with one
function definition, instantiating the no-incoming-edge-into-node-0 part at
the graph's concrete edge (0, START) → 1. -/
theorem c4_start_nodes_witness :
    countType "start" (buildCFG [.funcdefn "g" [] [.ret none]]).nodes = 2 ∧
    (1 : Nat) ≠ 0 := by
  refine ⟨(c4_start_nodes [.funcdefn "g" [] [.ret none]]).1, ?_⟩
  exact (c4_start_nodes [.funcdefn "g" [] [.ret none]]).2.2
    ⟨0, "START", "start", none, [(1, "")], []⟩ (by decide) (1, "") (by decide)

theorem cyclo_eq_one_of (nodes : List CFGNode) (hne : nodes ≠ [])
    (hle : totalEdges nodes + 1 ≤ nodes.length) :
    calculate_cyclomatic_complexity nodes = 1 := by
  have hempty : nodes.isEmpty = false := by
    cases nodes with
    | nil => exact absurd rfl hne
    | cons a t => rfl
  simp only [calculate_cyclomatic_complexity, hempty]
  have h3 : (totalEdges nodes : Int) - (nodes.length : Int) + 2 ≤ 1 := by omega
  simp [max_eq_right, h3]

theorem decisionComplexity_eq_countType (nodes : List CFGNode) :
    calculate_complexity_by_decisions nodes = countType "decision" nodes + 1 := by
  simp [calculate_complexity_by_decisions, countType, List.countP_eq_length_filter]

/-- C6: a successfully built graph with zero Decision nodes has cyclomatic
complexity exactly 1 and decision-count complexity exactly 1: without
conditionals or loops every connect step targets the single node it just
created from a frontier of at most one exit, so `E ≤ N - 1` and
`max (E - N + 2, 1) = 1`, while the decision count is 0 + 1. -/
theorem c6_no_decisions (prog : List Stmt)
    (h : countType "decision" (buildCFG prog).nodes = 0) :
    calculate_cyclomatic_complexity (buildCFG prog).nodes = 1 ∧
    calculate_complexity_by_decisions (buildCFG prog).nodes = 1 := by
  have hdec : calculate_complexity_by_decisions (buildCFG prog).nodes = 1 := by
    rw [decisionComplexity_eq_countType, h]
  refine ⟨?_, hdec⟩
  have hcd : createdList "decision" prog = 0 := by
    rw [buildCFG_eq, connect_countType, create_countType, countType_visitStmts] at h
    have h1 : countType "decision"
        (⟨[⟨0, "START", "start", none, [], []⟩], 1, [0]⟩ : Builder).nodes = 0 := rfl
    have h2 : (if ("end" == "decision") = true then 1 else 0) = 0 := rfl
    omega
  have hnb : noBranchList prog = true := noBranchList_of_zero_decisions prog hcd
  have hEB0 : EdgeBound
      (⟨[⟨0, "START", "start", none, [], []⟩], 1, [0]⟩ : Builder).nodes
      (⟨[⟨0, "START", "start", none, [], []⟩], 1, [0]⟩ : Builder).current_exits := by
    unfold EdgeBound
    decide
  have hEB := edgeBound_visitStmts _ prog hnb hEB0
  unfold EdgeBound at hEB
  have h1 := connect_totalEdges_le
    ((visitStmts ⟨[⟨0, "START", "start", none, [], []⟩], 1, [0]⟩ prog).create_node
      "END" "end" none).1
    ((visitStmts ⟨[⟨0, "START", "start", none, [], []⟩], 1, [0]⟩ prog).create_node
      "END" "end" none).2
  rw [create_totalEdges, create_exits] at h1
  have h2 := connect_nodes_length
    ((visitStmts ⟨[⟨0, "START", "start", none, [], []⟩], 1, [0]⟩ prog).create_node
      "END" "end" none).1
    ((visitStmts ⟨[⟨0, "START", "start", none, [], []⟩], 1, [0]⟩ prog).create_node
      "END" "end" none).2
  rw [create_nodes_length] at h2
  rw [buildCFG_eq]
  apply cyclo_eq_one_of
  · intro hemp
    rw [hemp] at h2
    simp at h2
  · omega

/-- Closed instance of `c6_no_decisions` on the one-assignment program. -/
theorem c6_no_decisions_witness :
    countType "decision" (buildCFG [.assign ["x"] "1"]).nodes = 0 ∧
    calculate_cyclomatic_complexity (buildCFG [.assign ["x"] "1"]).nodes = 1 ∧
    calculate_complexity_by_decisions (buildCFG [.assign ["x"] "1"]).nodes = 1 :=
  ⟨by rfl, (c6_no_decisions [.assign ["x"] "1"] (by rfl)).1,
    (c6_no_decisions [.assign ["x"] "1"] (by rfl)).2⟩
